import Mathlib

/-!
Verification development for the orbax-backed checkpointer
(`axlearn/common/checkpointer_orbax.py`).

The Python module is shallowly embedded: the checkpointer's mutable fields
become an explicit state record threaded through `save`/`restore`, the orbax
`CheckpointManager` (an external dependency) is modelled from the spec's
description of its contract, and exceptions become explicit outcome values
(`SaveOutcome`, `RestoreError`).
-/

namespace OrbaxCkpt

/-- Python literal leaf values that can appear in a state tree and in the
JSON-serialized index (ints, strings, bools, `None`). -/
inductive Lit where
  | int (n : Int)
  | str (s : String)
  | bool (b : Bool)
  | none
  deriving DecidableEq, Repr

/-- A leaf of a state tree, as classified by `_get_spec`'s `isinstance` chain:
`Tensor`/`TensorSpec` (dtype + shape), `tf.data.Iterator` (an opaque stateful
object carrying its `str(type(value))` tag), or any other (literal) value. -/
inductive Leaf where
  | tensor (dtype : String) (shape : List Nat)
  | iterator (tag : String)
  | literal (v : Lit)
  deriving DecidableEq, Repr

/-- A nested state tree: a leaf, or an ordered mapping from keys to subtrees. -/
inductive Nested where
  | leaf (l : Leaf)
  | node (children : List (String × Nested))

/-- Path-join for nested keys, `"/"`-separated as in `utils.flatten_items`. -/
def childPath (pfx k : String) : String :=
  if pfx = "" then k else pfx ++ "/" ++ k

mutual

/-- Modelled from the spec: `utils.flatten_items` (defined in
`axlearn/common/utils.py`, which is outside the provided sources) "iterates
state in a fixed, deterministic path order": a depth-first walk emitting
`(joined-path, leaf)` pairs in the stored key order. -/
def flattenAux (pfx : String) : Nested → List (String × Leaf)
  | Nested.leaf l => [(pfx, l)]
  | Nested.node cs => flattenAuxList pfx cs

def flattenAuxList (pfx : String) : List (String × Nested) → List (String × Leaf)
  | [] => []
  | (k, t) :: rest => flattenAux (childPath pfx k) t ++ flattenAuxList pfx rest

end

def flattenItems (t : Nested) : List (String × Leaf) :=
  flattenAux "" t

/-- Values appearing in the serialized index: a JSON literal, the
`{"dtype": ..., "shape": ...}` record emitted for array leaves, or the
`str(type(value))` tag emitted for `tf.data.Iterator` leaves. -/
inductive SpecValue where
  | lit (v : Lit)
  | dtypeShape (dtype : String) (shape : String)
  | typeTag (s : String)
  deriving DecidableEq, Repr

/-- `str(tuple(value.shape))`: Python tuple rendering of a shape. -/
def shapeStr : List Nat → String
  | [] => "()"
  | [n] => "(" ++ toString n ++ ",)"
  | s => "(" ++ String.intercalate ", " (s.map toString) ++ ")"

/-- The value recorded in the index for one step entry: the step int, or
`None` when no step is known. -/
def stepVal : Option Nat → SpecValue
  | some n => SpecValue.lit (Lit.int (Int.ofNat n))
  | Option.none => SpecValue.lit Lit.none

/-- Translation of `OrbaxCheckpointer._get_spec`: starts from
`[("step", step)]` and appends one entry per flattened leaf, choosing the
entry shape by the leaf's kind (Tensor/TensorSpec, tf.data.Iterator, other). -/
def getSpecIndex (step : Option Nat) (state : Nested) : List (String × SpecValue) :=
  (flattenItems state).foldl
    (fun acc pv =>
      match pv with
      | (path, Leaf.tensor dtype shape) =>
          acc ++ [(path, SpecValue.dtypeShape dtype (shapeStr shape))]
      | (path, Leaf.iterator tag) => acc ++ [(path, SpecValue.typeTag tag)]
      | (path, Leaf.literal v) => acc ++ [(path, SpecValue.lit v)])
    [("step", stepVal step)]

/-- The per-leaf index entry value, by leaf kind. -/
def leafSpecValue : Leaf → SpecValue
  | Leaf.tensor dtype shape => SpecValue.dtypeShape dtype (shapeStr shape)
  | Leaf.iterator tag => SpecValue.typeTag tag
  | Leaf.literal v => SpecValue.lit v

theorem foldl_append_eq_map (l : List (String × Leaf))
    (init : List (String × SpecValue)) :
    l.foldl
      (fun acc pv =>
        match pv with
        | (path, Leaf.tensor dtype shape) =>
            acc ++ [(path, SpecValue.dtypeShape dtype (shapeStr shape))]
        | (path, Leaf.iterator tag) => acc ++ [(path, SpecValue.typeTag tag)]
        | (path, Leaf.literal v) => acc ++ [(path, SpecValue.lit v)]) init
      = init ++ l.map (fun pv => (pv.1, leafSpecValue pv.2)) := by
  induction l generalizing init with
  | nil => simp
  | cons hd tl ih =>
      obtain ⟨path, lf⟩ := hd
      cases lf <;> simp [List.foldl_cons, ih, leafSpecValue]

/-- C5: the index built by `_get_spec` is exactly the `("step", step)` entry
followed by one entry per leaf of the state tree, in the deterministic
`flatten_items` order, with the entry's shape determined by the leaf's kind:
`{dtype, shape}` for Tensor/TensorSpec leaves, the type-tag string for
`tf.data.Iterator` leaves, and the literal itself for every other leaf. -/
theorem getSpec_step_then_leaf_entries (s : Nat) (state : Nested) :
    getSpecIndex (some s) state
      = ("step", SpecValue.lit (Lit.int (Int.ofNat s)))
          :: (flattenItems state).map (fun pv => (pv.1, leafSpecValue pv.2)) := by
  unfold getSpecIndex
  rw [foldl_append_eq_map]
  simp [stepVal]

/-- Evaler summaries: a dict from evaler name to summary values (flattened to
a literal association list in the model). -/
abbrev Summaries := List (String × Lit)

/-- The injected save policy, as the code invokes it:
`save_policy(step=step, evaler_summaries=self._eval_summaries)`. The second
argument is the manager's `_eval_summaries` field value, which is `None`
outside a `save` call. -/
abbrev SavePolicy := Nat → Option Summaries → Bool

/-- A persisted checkpoint: its `index` artifact and its `state` payload. -/
structure Ckpt where
  index : List (String × SpecValue)
  state : Nested

/-- Modelled from the spec: the state of the orbax `CheckpointManager`
(external to the sources) visible to this wrapper. `ckpts` is the ordered
ledger of committed checkpoints (appended in commit order); `pending` is the
at-most-one in-flight asynchronous save whose artifacts are still being
written. -/
structure ManagerState where
  ckpts : List (Nat × Ckpt)
  pending : Option (Nat × Ckpt)

/-- Modelled from the spec: waiting for all dispatched asynchronous work to
finish commits the in-flight checkpoint (`wait_until_finished`, and the
admission wait at the start of `CheckpointManager.save`). -/
def flush (m : ManagerState) : ManagerState :=
  match m.pending with
  | Option.none => m
  | some sc => { ckpts := m.ckpts ++ [sc], pending := Option.none }

/-- Modelled from the spec: `ocp.CheckpointManager.save`. It first waits for
the prior in-flight serialization to finish ("Note that save() waits for
prior serialization to finish"), consults the injected `should_save_fn`
(saving regardless of the policy verdict when a preemption signal has been
raised for the step, per orbax's save-on-preemption behaviour the code
comments rely on), and when saving dispatches the step's artifacts as the new
in-flight work. -/
def managerSave (shouldSave preempted : Bool) (m : ManagerState) (step : Nat)
    (idx : List (String × SpecValue)) (state : Nested) : ManagerState :=
  let m1 := flush m
  if shouldSave || preempted then { m1 with pending := some (step, ⟨idx, state⟩) }
  else m1

/-- How a `save` call ends: normal return, the distinguished
`SystemExit` raised after preemption ("must exit"), the `AssertionError` from
the `assert self._eval_summaries is None` usage check, or an exception
propagating out of `self._manager.save` itself. -/
inductive SaveOutcome where
  | ok
  | mustExit
  | assertionError
  | saveError
  deriving DecidableEq, Repr

/-- The mutable fields of `OrbaxCheckpointer` that `save`/`restore` touch:
the underlying manager and the `_eval_summaries` side channel. -/
structure CheckpointerState where
  mgr : ManagerState
  evalSummaries : Option Summaries

/-- Translation of `OrbaxCheckpointer.save`. Exceptions are explicit:
the initial `assert` failure short-circuits before the `try` block (so the
`finally` does not run there); `fault` injects an exception raised by
`self._manager.save` inside the `try` block; the preemption branch waits via
`wait_until_finished` and then raises `SystemExit`, modelled as the
distinguished `mustExit` outcome. The `finally` clause resets
`_eval_summaries` to `None` on every path through the `try` block. -/
def save (savePolicy : SavePolicy) (reachedPreemption : Nat → Bool) (fault : Bool)
    (st : CheckpointerState) (step : Nat) (state : Nested)
    (evalerSummaries : Option Summaries) : SaveOutcome × CheckpointerState :=
  let spec := getSpecIndex (some step) state
  match st.evalSummaries with
  | some _ => (SaveOutcome.assertionError, st)
  | Option.none =>
    let summ : Summaries := evalerSummaries.getD []
    if fault then
      (SaveOutcome.saveError, { st with evalSummaries := Option.none })
    else
      let shouldSave := savePolicy step (some summ)
      let mgr1 := managerSave shouldSave (reachedPreemption step) st.mgr step spec state
      if reachedPreemption step then
        let mgr2 := flush mgr1
        (SaveOutcome.mustExit, { mgr := mgr2, evalSummaries := Option.none })
      else
        (SaveOutcome.ok, { mgr := mgr1, evalSummaries := Option.none })

/-- `OrbaxCheckpointer.wait_until_finished`: delegates to the manager. -/
def waitUntilFinished (st : CheckpointerState) : CheckpointerState :=
  { st with mgr := flush st.mgr }

/-- Errors the orbax manager's `restore` can raise, as the wrapper sees them:
the `TypeError` orbax hits when there are no checkpoints and it formats
`None` as the step dir, and the error raised for an explicitly requested
step that has no committed checkpoint. -/
inductive MgrRestoreError where
  | typeErrorNoCkpt
  | missingStep
  deriving DecidableEq, Repr

/-- First committed checkpoint for `s`, in ledger order. -/
def lookupCkpt (s : Nat) : List (Nat × Ckpt) → Option Ckpt
  | [] => Option.none
  | (k, c) :: rest => if k = s then some c else lookupCkpt s rest

/-- Modelled from the spec: `ocp.CheckpointManager.restore` (external).
With `step = None` it restores the most recently committed step, raising the
`TypeError` the wrapper's comment describes when no committed checkpoint
exists; with an explicit step it restores that step's committed checkpoint,
failing when the step was never committed. Only committed checkpoints are
visible ("no corrupted or partially-written checkpoints are ever mistaken
for valid ones"). -/
def managerRestore (m : ManagerState) (step : Option Nat) :
    Except MgrRestoreError (List (String × SpecValue) × Nested) :=
  match step with
  | Option.none =>
      match m.ckpts.getLast? with
      | Option.none => Except.error MgrRestoreError.typeErrorNoCkpt
      | some (_, c) => Except.ok (c.index, c.state)
  | some s =>
      match lookupCkpt s m.ckpts with
      | Option.none => Except.error MgrRestoreError.missingStep
      | some c => Except.ok (c.index, c.state)

/-- Errors a `restore` call can surface: the `ValueError("Failed to restore
at step ...")` the wrapper raises for an explicitly requested step when the
manager reports no checkpoints, the propagated manager error for a missing
explicit step (the spec's `StepNotFound`), and a structural-validation
failure naming the offending path (the spec's `StructureMismatch`). -/
inductive RestoreError where
  | valueErrorFailedRestore (step : Nat)
  | stepNotFound
  | structureMismatch (path : String)
  deriving DecidableEq, Repr

/-- First path at which the two index records disagree. -/
def firstMismatchPath : List (String × SpecValue) → List (String × SpecValue) → String
  | [], [] => ""
  | [], (k, _) :: _ => k
  | (k, _) :: _, [] => k
  | (k, v) :: rest, (k2, v2) :: rest2 =>
      if k = k2 ∧ v = v2 then firstMismatchPath rest rest2 else k

/-- Modelled from the spec: `check_state_structure` (defined in
`axlearn/common/checkpointer.py`, outside the provided sources) under
`EXACT` validation: "every path must match in both key-set and leaf
descriptor exactly; any mismatch fails with StructureMismatch naming the
offending path(s)". -/
def checkStateStructure (actual target : List (String × SpecValue)) :
    Except RestoreError Unit :=
  if actual = target then Except.ok ()
  else Except.error (RestoreError.structureMismatch (firstMismatchPath actual target))

/-- The `for k, v in restored_index: if k == "step": step = v; break` loop. -/
def findStepEntry : List (String × SpecValue) → Option Nat
  | [] => Option.none
  | (k, v) :: rest =>
      if k = "step" then
        match v with
        | SpecValue.lit (Lit.int (Int.ofNat n)) => some n
        | _ => Option.none
      else findStepEntry rest

/-- Translation of `OrbaxCheckpointer.restore`: calls the manager's restore;
on the `TypeError` raised when no checkpoints exist, re-raises `ValueError`
for an explicit step and returns `(None, state)` (the caller's template)
otherwise; other manager errors propagate. On success it resolves the step
from the restored index when `step` was `None`, validates the restored index
against a freshly built `_get_spec` index for the template under the
configured (EXACT) validation, and returns the step and restored state. -/
def restore (st : CheckpointerState) (step : Option Nat) (template : Nested) :
    Except RestoreError (Option Nat × Nested) :=
  match managerRestore st.mgr step with
  | Except.error MgrRestoreError.typeErrorNoCkpt =>
      match step with
      | some s => Except.error (RestoreError.valueErrorFailedRestore s)
      | Option.none => Except.ok (Option.none, template)
  | Except.error MgrRestoreError.missingStep => Except.error RestoreError.stepNotFound
  | Except.ok (restoredIndex, restoredState) =>
      let stepResolved :=
        match step with
        | some s => some s
        | Option.none => findStepEntry restoredIndex
      match checkStateStructure restoredIndex (getSpecIndex stepResolved template) with
      | Except.error e => Except.error e
      | Except.ok () => Except.ok (stepResolved, restoredState)

theorem flush_pending_none (m : ManagerState) : (flush m).pending = Option.none := by
  unfold flush
  cases h : m.pending <;> simp [h]

/-- C1: if a preemption signal has been raised for `step`, `save` signals the
distinguished must-exit termination (`SystemExit`, not a generic error) and,
before signalling, has waited for the just-dispatched asynchronous work: in
the final state no work is pending and the step's checkpoint is committed.
Moreover, on every path whatsoever, `save` only ever signals must-exit with
no in-flight write remaining. -/
theorem save_preemption_drains_then_must_exit
    (savePolicy : SavePolicy) (reachedPreemption : Nat → Bool)
    (st : CheckpointerState) (step : Nat) (state : Nested) (es : Option Summaries)
    (h0 : st.evalSummaries = Option.none)
    (hp : reachedPreemption step = true) :
    (save savePolicy reachedPreemption false st step state es).1 = SaveOutcome.mustExit
    ∧ (save savePolicy reachedPreemption false st step state es).2.mgr.pending
        = Option.none
    ∧ (step, Ckpt.mk (getSpecIndex (some step) state) state)
        ∈ (save savePolicy reachedPreemption false st step state es).2.mgr.ckpts
    ∧ (∀ (p : SavePolicy) (rp : Nat → Bool) (f : Bool) (st2 : CheckpointerState)
        (step2 : Nat) (state2 : Nested) (es2 : Option Summaries),
        (save p rp f st2 step2 state2 es2).1 = SaveOutcome.mustExit →
        (save p rp f st2 step2 state2 es2).2.mgr.pending = Option.none) := by
  refine ⟨?_, ?_, ?_, ?_⟩
  · simp [save, h0, hp]
  · simp [save, h0, hp, flush_pending_none]
  · simp only [save, h0, hp]
    simp [managerSave, flush]
  · intro p rp f st2 step2 state2 es2 hme
    unfold save at hme ⊢
    cases hse : st2.evalSummaries with
    | some s => simp [hse] at hme
    | none =>
        simp only [hse] at hme ⊢
        cases f with
        | true => simp at hme
        | false =>
            cases hrp : rp step2 with
            | true => simp [hrp, flush_pending_none]
            | false => simp [hrp] at hme

/-- The empty initial checkpointer state: no committed checkpoints, nothing
pending, no in-flight summaries. -/
def st0 : CheckpointerState :=
  { mgr := { ckpts := [], pending := Option.none }, evalSummaries := Option.none }

/-- A one-leaf literal state tree used as a concrete fixture. -/
def leafState : Nested := Nested.leaf (Leaf.literal (Lit.int 1))

theorem save_preemption_drains_then_must_exit_witness :
    st0.evalSummaries = Option.none
    ∧ (fun _ : Nat => true) 0 = true
    ∧ ((save (fun _ _ => false) (fun _ => true) false st0 0 leafState Option.none).1
          = SaveOutcome.mustExit
        ∧ (save (fun _ _ => false) (fun _ => true) false st0 0 leafState
            Option.none).2.mgr.pending = Option.none
        ∧ (0, Ckpt.mk (getSpecIndex (some 0) leafState) leafState)
            ∈ (save (fun _ _ => false) (fun _ => true) false st0 0 leafState
                Option.none).2.mgr.ckpts
        ∧ (∀ (p : SavePolicy) (rp : Nat → Bool) (f : Bool) (st2 : CheckpointerState)
            (step2 : Nat) (state2 : Nested) (es2 : Option Summaries),
            (save p rp f st2 step2 state2 es2).1 = SaveOutcome.mustExit →
            (save p rp f st2 step2 state2 es2).2.mgr.pending = Option.none)) :=
  ⟨rfl, rfl,
    save_preemption_drains_then_must_exit (fun _ _ => false) (fun _ => true) st0 0
      leafState Option.none rfl rfl⟩

/-- C2: whatever the path through the `try` block — normal return, an
exception raised by the manager's save, or the must-exit signal after
preemption — the `finally` clause leaves `_eval_summaries` as `None` when
`save` completes. (On entry `_eval_summaries` is `None` in every reachable
sequential state; a non-`None` entry state is the concurrent-usage error that
C8's assertion rejects before the `try` block is entered.) -/
theorem save_always_clears_eval_summaries
    (savePolicy : SavePolicy) (reachedPreemption : Nat → Bool) (fault : Bool)
    (st : CheckpointerState) (step : Nat) (state : Nested) (es : Option Summaries)
    (h0 : st.evalSummaries = Option.none) :
    (save savePolicy reachedPreemption fault st step state es).2.evalSummaries
      = Option.none := by
  unfold save
  simp only [h0]
  cases fault with
  | true => simp
  | false => cases hrp : reachedPreemption step <;> simp [hrp]

theorem save_always_clears_eval_summaries_witness :
    st0.evalSummaries = Option.none
    ∧ (save (fun _ _ => true) (fun _ => false) false st0 3 leafState
        (some [("acc", Lit.int 7)])).2.evalSummaries = Option.none :=
  ⟨rfl,
    save_always_clears_eval_summaries (fun _ _ => true) (fun _ => false) false st0 3
      leafState (some [("acc", Lit.int 7)]) rfl⟩

/-- C8: a `save` call entered while a previous call's side-channel summaries
are still set (`_eval_summaries` is not `None`) fails the
`assert self._eval_summaries is None` check: it ends with the fatal
`AssertionError` outcome and performs no state change at all — it is never
silently resolved. -/
theorem save_asserts_on_inflight_summaries
    (savePolicy : SavePolicy) (reachedPreemption : Nat → Bool) (fault : Bool)
    (st : CheckpointerState) (step : Nat) (state : Nested)
    (es : Option Summaries) (s : Summaries)
    (h : st.evalSummaries = some s) :
    save savePolicy reachedPreemption fault st step state es
      = (SaveOutcome.assertionError, st) := by
  unfold save
  simp [h]

theorem save_asserts_on_inflight_summaries_witness :
    ({ mgr := { ckpts := [], pending := Option.none },
        evalSummaries := some [] } : CheckpointerState).evalSummaries = some []
    ∧ save (fun _ _ => true) (fun _ => false) false
        { mgr := { ckpts := [], pending := Option.none }, evalSummaries := some [] }
        5 leafState Option.none
        = (SaveOutcome.assertionError,
            { mgr := { ckpts := [], pending := Option.none },
              evalSummaries := some [] }) :=
  ⟨rfl,
    save_asserts_on_inflight_summaries (fun _ _ => true) (fun _ => false) false
      { mgr := { ckpts := [], pending := Option.none }, evalSummaries := some [] }
      5 leafState Option.none [] rfl⟩

/-- C3: on an empty checkpoint root, `restore` with an unspecified step
returns `(None, template)` with the caller's template unchanged — not an
error — while `restore` with an explicitly requested step fails with the
step-not-found error and never silently returns the template. -/
theorem restore_missing_checkpoint_semantics
    (st : CheckpointerState) (template : Nested)
    (h : st.mgr.ckpts = []) :
    restore st Option.none template = Except.ok (Option.none, template)
    ∧ ∀ s : Nat, restore st (some s) template
        = Except.error RestoreError.stepNotFound := by
  constructor
  · simp [restore, managerRestore, h]
  · intro s
    simp [restore, managerRestore, h, lookupCkpt]

theorem restore_missing_checkpoint_semantics_witness :
    st0.mgr.ckpts = []
    ∧ (restore st0 Option.none leafState = Except.ok (Option.none, leafState)
        ∧ ∀ s : Nat, restore st0 (some s) leafState
            = Except.error RestoreError.stepNotFound) :=
  ⟨rfl, restore_missing_checkpoint_semantics st0 leafState rfl⟩

theorem lookupCkpt_append_self (s : Nat) (c : Ckpt) (l : List (Nat × Ckpt))
    (h : ∀ x ∈ l, x.1 ≠ s) :
    lookupCkpt s (l ++ [(s, c)]) = some c := by
  induction l with
  | nil => simp [lookupCkpt]
  | cons hd tl ih =>
      obtain ⟨k, ck⟩ := hd
      have hne : k ≠ s := h (k, ck) (by simp)
      simp only [List.cons_append, lookupCkpt, if_neg hne]
      exact ih fun x hx => h x (by simp [hx])

theorem flush_preserves_fresh (m : ManagerState) (s : Nat)
    (h1 : ∀ c ∈ m.ckpts, c.1 ≠ s)
    (h2 : ∀ p, m.pending = some p → p.1 ≠ s) :
    ∀ c ∈ (flush m).ckpts, c.1 ≠ s := by
  unfold flush
  cases hp : m.pending with
  | none => simpa using h1
  | some p =>
      intro c hc
      simp only [List.mem_append, List.mem_singleton] at hc
      rcases hc with hc | hc
      · exact h1 c hc
      · rw [hc]; exact h2 p hp

/-- C4: for a state tree whose leaves are arrays and literals only,
`save(s, T)` (with the policy approving and no preemption) followed — once
the asynchronous work has finished — by `restore(s, T)` under EXACT
validation succeeds: the persisted checkpoint's index is exactly the index
freshly rebuilt from `T` at step `s`, the restored index equals it, and the
restore returns `(s, T)`. -/
theorem save_restore_roundtrip_exact
    (savePolicy : SavePolicy) (reachedPreemption : Nat → Bool)
    (st : CheckpointerState) (step : Nat) (state : Nested) (es : Option Summaries)
    (h0 : st.evalSummaries = Option.none)
    (_hleaves : ((flattenItems state).all fun pv =>
        match pv.2 with
        | Leaf.iterator _ => false
        | _ => true) = true)
    (hpol : savePolicy step (some (es.getD [])) = true)
    (hp : reachedPreemption step = false)
    (hfresh : ∀ c ∈ st.mgr.ckpts, c.1 ≠ step)
    (hfreshPending : ∀ p, st.mgr.pending = some p → p.1 ≠ step) :
    lookupCkpt step
        (waitUntilFinished
          (save savePolicy reachedPreemption false st step state es).2).mgr.ckpts
      = some (Ckpt.mk (getSpecIndex (some step) state) state)
    ∧ managerRestore
        (waitUntilFinished
          (save savePolicy reachedPreemption false st step state es).2).mgr
        (some step)
      = Except.ok (getSpecIndex (some step) state, state)
    ∧ restore
        (waitUntilFinished
          (save savePolicy reachedPreemption false st step state es).2)
        (some step) state
      = Except.ok (some step, state) := by
  have hsave :
      (waitUntilFinished
        (save savePolicy reachedPreemption false st step state es).2).mgr.ckpts
      = (flush st.mgr).ckpts
          ++ [(step, Ckpt.mk (getSpecIndex (some step) state) state)] := by
    unfold save waitUntilFinished managerSave
    simp [h0, hpol, hp, flush]
  have hfreshFlushed : ∀ c ∈ (flush st.mgr).ckpts, c.1 ≠ step :=
    flush_preserves_fresh st.mgr step hfresh hfreshPending
  have hlook :
      lookupCkpt step
        (waitUntilFinished
          (save savePolicy reachedPreemption false st step state es).2).mgr.ckpts
      = some (Ckpt.mk (getSpecIndex (some step) state) state) := by
    rw [hsave]
    exact lookupCkpt_append_self step _ _ hfreshFlushed
  have hmr :
      managerRestore
        (waitUntilFinished
          (save savePolicy reachedPreemption false st step state es).2).mgr
        (some step)
      = Except.ok (getSpecIndex (some step) state, state) := by
    simp only [managerRestore]
    rw [hlook]
  refine ⟨hlook, hmr, ?_⟩
  unfold restore
  rw [hmr]
  simp [checkStateStructure]

theorem save_restore_roundtrip_exact_witness :
    st0.evalSummaries = Option.none
    ∧ ((flattenItems leafState).all fun pv =>
        match pv.2 with
        | Leaf.iterator _ => false
        | _ => true) = true
    ∧ (fun (_ : Nat) (_ : Option Summaries) => true) 1
        (some ((Option.none : Option Summaries).getD [])) = true
    ∧ (fun _ : Nat => false) 1 = false
    ∧ (lookupCkpt 1
          (waitUntilFinished
            (save (fun _ _ => true) (fun _ => false) false st0 1 leafState
              Option.none).2).mgr.ckpts
        = some (Ckpt.mk (getSpecIndex (some 1) leafState) leafState)
      ∧ managerRestore
          (waitUntilFinished
            (save (fun _ _ => true) (fun _ => false) false st0 1 leafState
              Option.none).2).mgr (some 1)
        = Except.ok (getSpecIndex (some 1) leafState, leafState)
      ∧ restore
          (waitUntilFinished
            (save (fun _ _ => true) (fun _ => false) false st0 1 leafState
              Option.none).2) (some 1) leafState
        = Except.ok (some 1, leafState)) :=
  ⟨rfl, rfl, rfl, rfl,
    save_restore_roundtrip_exact (fun _ _ => true) (fun _ => false) st0 1 leafState
      Option.none rfl rfl rfl rfl
      (fun c hc => by simp [st0] at hc)
      (fun p hp => by simp [st0] at hp)⟩

/-- A step directory under the checkpoint root, with the backend-visible
commitment evidence: on atomic-rename filesystems an uncommitted checkpoint
is marked by a "tmp" marker in its name; on filesystems without atomic
renames a committed checkpoint is marked by a `commit_success.txt` file.
`hasIndex` records whether an `index` artifact is present, which (per the
class docstring) an incomplete checkpoint can still contain. -/
structure StepDir where
  name : String
  tmpMarked : Bool
  commitFileThere : Bool
  hasIndex : Bool
  deriving DecidableEq, Repr

/-- The two commitment regimes described by the `OrbaxCheckpointer`
docstring. -/
inductive Backend where
  | atomicRename
  | nonAtomic
  deriving DecidableEq, Repr

/-- Commitment of a step directory, per the docstring: with atomic renames,
committed means no "tmp" marker; without, committed means the
`commit_success.txt` commit file is present. The `index` artifact plays no
role. -/
def isCommitted : Backend → StepDir → Bool
  | Backend.atomicRename, d => !d.tmpMarked
  | Backend.nonAtomic, d => d.commitFileThere

/-- Modelled from the spec: `ocp.utils.checkpoint_steps_paths` (orbax,
external to the sources) returns the step directories under the root that
are committed under the backend's commitment regime, in the root's listing
order. -/
def checkpointStepsPaths (b : Backend) (dirs : List StepDir) : List StepDir :=
  dirs.filter (isCommitted b)

/-- Translation of `OrbaxCheckpointer.checkpoint_paths`:
`[str(path) for path in ocp.utils.checkpoint_steps_paths(base_dir)]`. -/
def checkpointPaths (b : Backend) (dirs : List StepDir) : List String :=
  (checkpointStepsPaths b dirs).map (fun d => d.name)

theorem checkpointPaths_ignores_index (b : Backend) (dirs : List StepDir) :
    checkpointPaths b (dirs.map (fun d => { d with hasIndex := !d.hasIndex }))
      = checkpointPaths b dirs := by
  induction dirs with
  | nil => rfl
  | cons hd tl ih =>
      have hcomm : isCommitted b { hd with hasIndex := !hd.hasIndex }
          = isCommitted b hd := by
        cases b <;> rfl
      simp only [checkpointPaths, checkpointStepsPaths, List.map_cons,
        List.filter_cons, hcomm] at ih ⊢
      cases hc : isCommitted b hd <;> simp [hc, ih]

/-- C6: `checkpoint_paths` lists exactly the committed checkpoint
directories under the root, in order (the listing is a sublist of the root's
directories): every committed directory is listed, a directory without the
backend's commit marker is never listed — even when an `index` artifact is
present in it — and the listing is unchanged by adding or removing `index`
artifacts. -/
theorem checkpoint_paths_only_committed (b : Backend) (dirs : List StepDir)
    (hnodup : (dirs.map (fun d => d.name)).Nodup) :
    (∀ d ∈ dirs, isCommitted b d = true → d.name ∈ checkpointPaths b dirs)
    ∧ (∀ d ∈ dirs, d.hasIndex = true → isCommitted b d = false →
        d.name ∉ checkpointPaths b dirs)
    ∧ (checkpointStepsPaths b dirs).Sublist dirs
    ∧ checkpointPaths b
        (dirs.map (fun d => { d with hasIndex := !d.hasIndex }))
      = checkpointPaths b dirs := by
  refine ⟨?_, ?_, ?_, ?_⟩
  · intro d hd hc
    simp only [checkpointPaths, checkpointStepsPaths, List.mem_map]
    exact ⟨d, List.mem_filter.mpr ⟨hd, hc⟩, rfl⟩
  · intro d hd _hidx hc hmem
    simp only [checkpointPaths, checkpointStepsPaths, List.mem_map] at hmem
    obtain ⟨d2, hd2, hname⟩ := hmem
    have hd2mem : d2 ∈ dirs := (List.mem_filter.mp hd2).1
    have hd2com : isCommitted b d2 = true := (List.mem_filter.mp hd2).2
    have : d2 = d := List.inj_on_of_nodup_map hnodup hd2mem hd hname
    rw [this] at hd2com
    rw [hd2com] at hc
    simp at hc
  · exact List.filter_sublist dirs
  · exact checkpointPaths_ignores_index b dirs

/-- A concrete root listing: a committed checkpoint, and an in-progress one
that already has an `index` artifact but no commit marker. -/
def dirsFixture : List StepDir :=
  [{ name := "step_00000001", tmpMarked := false, commitFileThere := true,
     hasIndex := true },
   { name := "step_00000002", tmpMarked := true, commitFileThere := false,
     hasIndex := true }]

theorem checkpoint_paths_only_committed_witness :
    ((dirsFixture.map (fun d => d.name)).Nodup
    ∧ ((∀ d ∈ dirsFixture, isCommitted Backend.nonAtomic d = true →
          d.name ∈ checkpointPaths Backend.nonAtomic dirsFixture)
      ∧ (∀ d ∈ dirsFixture, d.hasIndex = true →
          isCommitted Backend.nonAtomic d = false →
          d.name ∉ checkpointPaths Backend.nonAtomic dirsFixture)
      ∧ (checkpointStepsPaths Backend.nonAtomic dirsFixture).Sublist dirsFixture
      ∧ checkpointPaths Backend.nonAtomic
          (dirsFixture.map (fun d => { d with hasIndex := !d.hasIndex }))
        = checkpointPaths Backend.nonAtomic dirsFixture)) :=
  ⟨by decide,
    checkpoint_paths_only_committed Backend.nonAtomic dirsFixture (by decide)⟩

/-- What `save_fn_with_summaries` actually invokes the injected
`cfg.save_policy` with: `save_policy(step=step, evaler_summaries=self._eval_summaries)`. -/
structure PolicyCall where
  step : Nat
  evalerSummaries : Option Summaries
  deriving DecidableEq, Repr

/-- The arguments `save_fn_with_summaries` passes to the injected policy,
given the manager field `_eval_summaries` and the `(step, last_saved_step)`
pair orbax provides: the body executes `del last_saved_step` and calls
`save_policy(step=step, evaler_summaries=self._eval_summaries)`. -/
def saveFnWithSummariesCall (evalSummaries : Option Summaries) (step : Nat)
    (lastSavedStep : Option Nat) : PolicyCall :=
  let _ := lastSavedStep
  { step := step, evalerSummaries := evalSummaries }

/-- Translation of `save_fn_with_summaries` itself: the boolean verdict. -/
def saveFnWithSummaries (savePolicy : SavePolicy)
    (evalSummaries : Option Summaries) (step : Nat)
    (lastSavedStep : Option Nat) : Bool :=
  let _ := lastSavedStep
  savePolicy step evalSummaries

/-- C7 counterexample: two invocations of `save_fn_with_summaries` at step 5
whose `last_saved_step` inputs differ (`some 3` vs `none`) produce the
identical invocation of the injected save policy — the last committed step
is discarded (`del last_saved_step`) and is not among the policy's inputs,
refuting the claim that the policy is invoked with
`(step, last_committed_step, side_channel_summaries)`. -/
theorem save_fn_discards_last_step_counterexample :
    saveFnWithSummariesCall (some [("a", Lit.int 1)]) 5 (some 3)
      = saveFnWithSummariesCall (some [("a", Lit.int 1)]) 5 Option.none := rfl

/-- C7 (amended): the wrapper registered with the manager receives
`(step, last_saved_step)` from orbax but discards `last_saved_step`; the
injected save policy is invoked with exactly the pair
`(step, side_channel_summaries)`, and its verdict is the wrapper's verdict. -/
theorem save_fn_passes_step_and_summaries_only (savePolicy : SavePolicy)
    (evalSummaries : Option Summaries) (step : Nat)
    (ls ls2 : Option Nat) :
    saveFnWithSummariesCall evalSummaries step ls
      = { step := step, evalerSummaries := evalSummaries }
    ∧ saveFnWithSummaries savePolicy evalSummaries step ls
      = savePolicy step evalSummaries
    ∧ saveFnWithSummaries savePolicy evalSummaries step ls
      = saveFnWithSummaries savePolicy evalSummaries step ls2 :=
  ⟨rfl, rfl, rfl⟩

/-- An opaque `tf.data.Iterator` handle passed to the handler. -/
structure TfIterator where
  id : Nat
  deriving DecidableEq, Repr

/-- Observable actions of one `_TfIteratorHandler.serialize` call, in the
order the call guarantees them: the per-call executor is created, each pair's
destination directory is ensured (`info.path.mkdir(exist_ok=True)`) before
its task is submitted, the single worker runs the submitted
`save_tf_savables` tasks in submission order, and the `with` block's exit
shuts the executor down (waiting for the tasks) before the call returns. -/
inductive SerEvent where
  | createExecutor (maxWorkers : Nat)
  | mkdirOk (path : String)
  | submitTask (i : Nat) (path : String)
  | runTask (i : Nat) (path : String)
  | shutdownExecutor
  deriving DecidableEq, Repr

structure SerializeResult where
  events : List SerEvent
  futs : List Nat
  deriving DecidableEq, Repr

/-- Translation of `_TfIteratorHandler.serialize`: zips `values` with the
`infos` (here reduced to their `path`s), and within a
`ThreadPoolExecutor(max_workers=1)` block makes each directory and submits
each `save_tf_savables(value, dir=info.path)` task, collecting one future
per pair; the trace linearizes the single worker's runs (in submission
order, all completed by the executor shutdown at block exit). -/
def serialize (values : List TfIterator) (paths : List String) : SerializeResult :=
  let pairs := (values.zip paths).enum
  { events :=
      SerEvent.createExecutor 1
        :: (pairs.flatMap
              (fun ip => [SerEvent.mkdirOk ip.2.2, SerEvent.submitTask ip.1 ip.2.2])
            ++ pairs.map (fun ip => SerEvent.runTask ip.1 ip.2.2)
            ++ [SerEvent.shutdownExecutor])
    futs := pairs.map (fun ip => ip.1) }

/-- `a` occurs strictly before `b` in the trace `l`. -/
def Precedes (a b : SerEvent) (l : List SerEvent) : Prop :=
  ∃ l1 l2 l3, l = l1 ++ a :: l2 ++ b :: l3

def isCreateExecutor : SerEvent → Bool
  | SerEvent.createExecutor _ => true
  | _ => false

theorem precedes_of_mem_append (a b : SerEvent) (pre l1 l2 post : List SerEvent)
    (ha : a ∈ l1) (hb : b ∈ l2) :
    Precedes a b (pre ++ l1 ++ l2 ++ post) := by
  obtain ⟨x, y, hxy⟩ := List.append_of_mem ha
  obtain ⟨u, v, huv⟩ := List.append_of_mem hb
  refine ⟨pre ++ x, y ++ u, v ++ post, ?_⟩
  rw [hxy, huv]
  simp

theorem runTask_mem_enum (pairs : List (Nat × (TfIterator × String))) (i : Nat)
    (p : String)
    (hmem : SerEvent.runTask i p
      ∈ pairs.map (fun ip => SerEvent.runTask ip.1 ip.2.2)) :
    ∃ ip ∈ pairs, ip.1 = i ∧ ip.2.2 = p := by
  simp only [List.mem_map] at hmem
  obtain ⟨ip, hip, heq⟩ := hmem
  injection heq with hi hp
  exact ⟨ip, hip, hi, hp⟩

theorem getLast?_cons_append_singleton (a s : SerEvent) (l1 l2 : List SerEvent) :
    (a :: (l1 ++ l2 ++ [s])).getLast? = some s := by
  rw [show a :: (l1 ++ l2 ++ [s]) = (a :: (l1 ++ l2)) ++ [s] by simp]
  exact List.getLast?_concat _

/-- C9: one `serialize` call with `n` (value, destination) pairs returns
exactly `n` completion handles (one per pair); its trace creates exactly one
dedicated single-worker executor, ends with that executor's teardown (so it
is torn down, all tasks done, before `serialize` returns), and for every
pair the destination directory is ensured (`mkdir(exist_ok=True)`) before
the pair's state-extraction task runs on the worker, with every task run
completing before the executor teardown. -/
theorem serialize_per_pair_contract (values : List TfIterator)
    (paths : List String) (h : values.length = paths.length) :
    (serialize values paths).futs.length = values.length
    ∧ (serialize values paths).futs = List.range values.length
    ∧ (serialize values paths).events.filter isCreateExecutor
        = [SerEvent.createExecutor 1]
    ∧ (serialize values paths).events.getLast? = some SerEvent.shutdownExecutor
    ∧ ∀ i p, SerEvent.runTask i p ∈ (serialize values paths).events →
        Precedes (SerEvent.mkdirOk p) (SerEvent.runTask i p)
            (serialize values paths).events
        ∧ Precedes (SerEvent.runTask i p) SerEvent.shutdownExecutor
            (serialize values paths).events := by
  have hzlen : (values.zip paths).length = values.length := by
    rw [List.length_zip, h, Nat.min_self]
  refine ⟨?_, ?_, ?_, ?_, ?_⟩
  · simp [serialize, hzlen]
  · simp only [serialize]
    have hfst := List.enum_map_fst (values.zip paths)
    rw [show (fun ip : Nat × (TfIterator × String) => ip.1) = Prod.fst from rfl]
    rw [hfst, hzlen]
  · simp only [serialize, List.filter_cons]
    have hrest : (((values.zip paths).enum.flatMap
          (fun ip => [SerEvent.mkdirOk ip.2.2, SerEvent.submitTask ip.1 ip.2.2])
        ++ ((values.zip paths).enum.map (fun ip => SerEvent.runTask ip.1 ip.2.2)
        ++ [SerEvent.shutdownExecutor]))).filter isCreateExecutor = [] := by
      rw [List.filter_eq_nil_iff]
      intro e he
      cases e with
      | createExecutor w => simp at he
      | mkdirOk q => simp [isCreateExecutor]
      | submitTask i q => simp [isCreateExecutor]
      | runTask i q => simp [isCreateExecutor]
      | shutdownExecutor => simp [isCreateExecutor]
    rw [show ((values.zip paths).enum.flatMap
          (fun ip => [SerEvent.mkdirOk ip.2.2, SerEvent.submitTask ip.1 ip.2.2])
        ++ (values.zip paths).enum.map (fun ip => SerEvent.runTask ip.1 ip.2.2)
        ++ [SerEvent.shutdownExecutor])
      = ((values.zip paths).enum.flatMap
          (fun ip => [SerEvent.mkdirOk ip.2.2, SerEvent.submitTask ip.1 ip.2.2])
        ++ ((values.zip paths).enum.map (fun ip => SerEvent.runTask ip.1 ip.2.2)
        ++ [SerEvent.shutdownExecutor])) from by simp]
    rw [hrest]
    rfl
  · simp only [serialize]
    exact getLast?_cons_append_singleton _ _ _ _
  · intro i p hmem
    have hrun : SerEvent.runTask i p
        ∈ (values.zip paths).enum.map (fun ip => SerEvent.runTask ip.1 ip.2.2) := by
      simp only [serialize, List.mem_cons, List.mem_append, List.mem_flatMap,
        List.mem_map, List.mem_singleton, List.not_mem_nil, or_false] at hmem
      rcases hmem with he | (⟨ip, _, he⟩ | ⟨ip, hip, he⟩) | he
      · exact absurd he (by simp)
      · rcases he with he | he <;> simp at he
      · exact List.mem_map.mpr ⟨ip, hip, he⟩
      · exact absurd he (by simp)
    obtain ⟨ip, hip, hi, hp⟩ := runTask_mem_enum _ i p hrun
    constructor
    · have hev2 : (serialize values paths).events
          = [SerEvent.createExecutor 1]
            ++ (values.zip paths).enum.flatMap
              (fun ip => [SerEvent.mkdirOk ip.2.2, SerEvent.submitTask ip.1 ip.2.2])
            ++ (values.zip paths).enum.map (fun ip => SerEvent.runTask ip.1 ip.2.2)
            ++ [SerEvent.shutdownExecutor] := by
        simp [serialize]
      rw [hev2]
      refine precedes_of_mem_append _ _ _ _ _ _ ?_ hrun
      simp only [List.mem_flatMap]
      exact ⟨ip, hip, by rw [hp]; simp⟩
    · have hev3 : (serialize values paths).events
          = (SerEvent.createExecutor 1
              :: (values.zip paths).enum.flatMap
                (fun ip =>
                  [SerEvent.mkdirOk ip.2.2, SerEvent.submitTask ip.1 ip.2.2]))
            ++ (values.zip paths).enum.map (fun ip => SerEvent.runTask ip.1 ip.2.2)
            ++ [SerEvent.shutdownExecutor] ++ [] := by
        simp [serialize]
      rw [hev3]
      exact precedes_of_mem_append _ _ _ _ _ _ hrun (by simp)

theorem serialize_per_pair_contract_witness :
    ([TfIterator.mk 0] : List TfIterator).length = (["d1"] : List String).length
    ∧ ((serialize [TfIterator.mk 0] ["d1"]).futs.length = 1
      ∧ (serialize [TfIterator.mk 0] ["d1"]).futs = List.range 1
      ∧ (serialize [TfIterator.mk 0] ["d1"]).events.filter isCreateExecutor
          = [SerEvent.createExecutor 1]
      ∧ (serialize [TfIterator.mk 0] ["d1"]).events.getLast?
          = some SerEvent.shutdownExecutor
      ∧ ∀ i p, SerEvent.runTask i p ∈ (serialize [TfIterator.mk 0] ["d1"]).events →
          Precedes (SerEvent.mkdirOk p) (SerEvent.runTask i p)
              (serialize [TfIterator.mk 0] ["d1"]).events
          ∧ Precedes (SerEvent.runTask i p) SerEvent.shutdownExecutor
              (serialize [TfIterator.mk 0] ["d1"]).events) :=
  ⟨rfl, serialize_per_pair_contract [TfIterator.mk 0] ["d1"] rfl⟩

/-- A heap of summaries dicts: `next` is the next fresh reference, `cells`
maps references to dict values. Models Python object identity so that
aliasing between the caller's `evaler_summaries` and the manager's stored
copy is observable. -/
structure SummHeap where
  next : Nat
  cells : Nat → Summaries

/-- Allocate a fresh object holding `v`. -/
def alloc (h : SummHeap) (v : Summaries) : SummHeap × Nat :=
  ({ next := h.next + 1,
     cells := fun i => if i = h.next then v else h.cells i }, h.next)

/-- Heap-level translation of
`self._eval_summaries = copy.deepcopy(evaler_summaries or \x7b\x7d)`: with no
argument (`None`), a fresh empty dict is stored; otherwise `deepcopy`
allocates a fresh object holding the argument's current value, sharing no
storage with the caller's object. -/
def captureEvalSummaries (h : SummHeap) (arg : Option Nat) : SummHeap × Nat :=
  match arg with
  | Option.none => alloc h []
  | some r => alloc h (h.cells r)

/-- In-place mutation of the object behind reference `r`. -/
def writeCell (h : SummHeap) (r : Nat) (v : Summaries) : SummHeap :=
  { h with cells := fun i => if i = r then v else h.cells i }

/-- The value `save_fn_with_summaries` reads from `self._eval_summaries`
and hands to the injected policy. -/
def policyInput (h : SummHeap) (r : Nat) : Summaries := h.cells r

/-- C10: the summaries the save policy consults are a deep copy of the
`evaler_summaries` argument taken on entry to `save` (the empty mapping when
the argument is `None`): mutating the caller's object after `save` is
entered leaves the policy's input equal to the value the argument had at
entry, and two calls whose argument values are equal present identical
inputs to the policy. -/
theorem policy_input_deepcopy_isolated
    (h : SummHeap) (r : Nat) (hr : r < h.next) (v : Summaries)
    (h2 : SummHeap) (r2 : Nat)
    (heq : h.cells r = h2.cells r2) :
    policyInput (writeCell (captureEvalSummaries h (some r)).1 r v)
        (captureEvalSummaries h (some r)).2 = h.cells r
    ∧ policyInput (captureEvalSummaries h (some r)).1
          (captureEvalSummaries h (some r)).2
        = policyInput (captureEvalSummaries h2 (some r2)).1
            (captureEvalSummaries h2 (some r2)).2
    ∧ policyInput (captureEvalSummaries h Option.none).1
          (captureEvalSummaries h Option.none).2 = [] := by
  have hne : h.next ≠ r := (Nat.ne_of_lt hr).symm
  refine ⟨?_, ?_, ?_⟩
  · simp [captureEvalSummaries, alloc, writeCell, policyInput, hne]
  · simp [captureEvalSummaries, alloc, policyInput, heq]
  · simp [captureEvalSummaries, alloc, policyInput]

theorem policy_input_deepcopy_isolated_witness :
    (0 : Nat) < (SummHeap.mk 1 (fun _ => [])).next
    ∧ (SummHeap.mk 1 (fun _ => [])).cells 0 = (SummHeap.mk 3 (fun _ => [])).cells 2
    ∧ (policyInput
          (writeCell
            (captureEvalSummaries (SummHeap.mk 1 (fun _ => [])) (some 0)).1 0
            [("x", Lit.int 2)])
          (captureEvalSummaries (SummHeap.mk 1 (fun _ => [])) (some 0)).2
        = (SummHeap.mk 1 (fun _ => [])).cells 0
      ∧ policyInput (captureEvalSummaries (SummHeap.mk 1 (fun _ => [])) (some 0)).1
            (captureEvalSummaries (SummHeap.mk 1 (fun _ => [])) (some 0)).2
          = policyInput
              (captureEvalSummaries (SummHeap.mk 3 (fun _ => [])) (some 2)).1
              (captureEvalSummaries (SummHeap.mk 3 (fun _ => [])) (some 2)).2
      ∧ policyInput
            (captureEvalSummaries (SummHeap.mk 1 (fun _ => [])) Option.none).1
            (captureEvalSummaries (SummHeap.mk 1 (fun _ => [])) Option.none).2
          = []) :=
  ⟨Nat.zero_lt_one, rfl,
    policy_input_deepcopy_isolated (SummHeap.mk 1 (fun _ => [])) 0 Nat.zero_lt_one
      [("x", Lit.int 2)] (SummHeap.mk 3 (fun _ => [])) 2 rfl⟩

end OrbaxCkpt
